import Mathlib

/-!
Verification of the validator library of the repository (the module providing
isValidETHAddress, isValidHex, isValidENSAddress, isValidRawTx,
isPositiveIntegerOrZero, isValidEthCall and friends).

The JavaScript runtime values flowing through the validators are modelled by
the inductive types below: `JSNum` models an ECMAScript number as NaN, the two
infinities, or a finite value given by a decimal significand and exponent
(the value of `JSNum.fin m e` is m * 10 ^ e, which is exactly the information
observable through `Number.prototype.toString`); `JSValue` models a runtime
value; a plain object is a key/value association list (`JSRecord`), keys
unique as in a JavaScript object.

External collaborators of the module (the checksum function of ethereumjs-util
and the ENS normaliser) are parameters of the embedded functions: the
normaliser may throw, so it returns in `Except`.
-/

inductive JSNum where
  | nan : JSNum
  | inf : JSNum
  | neginf : JSNum
  | fin : Int → Int → JSNum
  deriving DecidableEq

inductive JSValue where
  | str : String → JSValue
  | num : JSNum → JSValue
  | boolean : Bool → JSValue
  | null : JSValue
  | undefined : JSValue
  | obj : List (String × JSValue) → JSValue
  | arr : List JSValue → JSValue

/-- A JavaScript plain object, as an association list with unique keys. -/
abbrev JSRecord := List (String × JSValue)

/-- substring(0, n) on a JavaScript string. -/
def jsTake (s : String) (n : Nat) : String :=
  String.mk (s.data.take n)

/-- substring(n) on a JavaScript string. -/
def jsDrop (s : String) (n : Nat) : String :=
  String.mk (s.data.drop n)

/-- toUpperCase() on a JavaScript string (ASCII range). -/
def jsToUpper (s : String) : String :=
  String.mk (s.data.map Char.toUpper)

/-- Property read `r[name]` on a plain object: value of the first matching
key, `undefined` when the key is absent. -/
def recGet (r : JSRecord) (name : String) : JSValue :=
  match r.find? (fun kv => kv.fst == name) with
  | some kv => kv.snd
  | none => JSValue.undefined

/-- hasOwnProperty(name). -/
def recHas (r : JSRecord) (name : String) : Bool :=
  r.any (fun kv => kv.fst == name)

/-- Property read on an arbitrary value; non-objects yield `undefined` for the
property names used in this module. -/
def getFieldOf (v : JSValue) (name : String) : JSValue :=
  match v with
  | JSValue.obj fields => recGet fields name
  | _ => JSValue.undefined

def jsNumTruthy : JSNum → Bool
  | JSNum.nan => false
  | JSNum.inf => true
  | JSNum.neginf => true
  | JSNum.fin m _ => !(m == 0)

/-- JavaScript truthiness. -/
def truthy : JSValue → Bool
  | JSValue.str s => !(s == "")
  | JSValue.num n => jsNumTruthy n
  | JSValue.boolean b => b
  | JSValue.null => false
  | JSValue.undefined => false
  | JSValue.obj _ => true
  | JSValue.arr _ => true

/-- The typeof operator. -/
def jsTypeof : JSValue → String
  | JSValue.str _ => "string"
  | JSValue.num _ => "number"
  | JSValue.boolean _ => "boolean"
  | JSValue.null => "object"
  | JSValue.undefined => "undefined"
  | JSValue.obj _ => "object"
  | JSValue.arr _ => "object"

/-- The logical-and operator: first operand when falsy, else second. -/
def jsAnd (a b : JSValue) : JSValue :=
  if truthy a then b else a

/-! ## isValidHex -/

/-- Character class of the regex [0-9A-F]. -/
def hexDigitUpperChar (c : Char) : Bool :=
  (('0' ≤ c) && (c ≤ '9')) || (('A' ≤ c) && (c ≤ 'F'))

/-- isValidHex(str): non-strings fail the typeof guard; the empty string is
accepted; otherwise an optional leading "0x" is removed, the rest is
uppercased and tested against /^[0-9A-F]*$/. -/
def isValidHex (v : JSValue) : Bool :=
  match v with
  | JSValue.str s =>
      if s == "" then true
      else
        let t := if jsTake s 2 == "0x" then jsDrop s 2 else s
        (jsToUpper t).data.all hexDigitUpperChar
  | _ => false

/-! ## Ether addresses -/

def hexAnyChar (c : Char) : Bool :=
  (('0' ≤ c) && (c ≤ '9')) || (('a' ≤ c) && (c ≤ 'f')) || (('A' ≤ c) && (c ≤ 'F'))

def hexLowerChar (c : Char) : Bool :=
  (('0' ≤ c) && (c ≤ '9')) || (('a' ≤ c) && (c ≤ 'f'))

def hexUpperChar (c : Char) : Bool :=
  (('0' ≤ c) && (c ≤ '9')) || (('A' ≤ c) && (c ≤ 'F'))

def stripOpt0x (s : String) : String :=
  if jsTake s 2 == "0x" then jsDrop s 2 else s

/-- Test of the regex /^(0x)?C{40}$/ for a character class C of hex digits:
since the letter x belongs to no such class, the optional group matches
exactly when the string starts with "0x", so the test is equivalent to
stripping an optional "0x" and checking 40 characters of the class. -/
def matches40 (cls : Char → Bool) (s : String) : Bool :=
  ((stripOpt0x s).length == 40) && ((stripOpt0x s).data.all cls)

/-- isChecksumAddress, with the external toChecksumAddress as a parameter. -/
def isChecksumAddress (toChecksumAddress : String → String) (address : String) : Bool :=
  address == toChecksumAddress address

/-- validateEtherAddress: "0x" prefix required, then 40 case-insensitive hex
digits; all-lowercase or all-uppercase digits are accepted outright,
anything else falls through to the checksum comparison. -/
def validateEtherAddress (toChecksumAddress : String → String) (address : String) : Bool :=
  if !(jsTake address 2 == "0x") then false
  else if !(matches40 hexAnyChar address) then false
  else if matches40 hexLowerChar address || matches40 hexUpperChar address then true
  else isChecksumAddress toChecksumAddress address

def zeroAddress : String := "0x0000000000000000000000000000000000000000"

/-- isValidETHAddress: falsy (empty) input and the all-zero sentinel address
are rejected, everything else is delegated to validateEtherAddress. -/
def isValidETHAddress (toChecksumAddress : String → String) (address : String) : Bool :=
  if address == "" then false
  else if address == zeroAddress then false
  else validateEtherAddress toChecksumAddress address

/-! ## ENS names and addresses -/

/-- lastIndexOf of a character, -1 when absent. -/
def jsLastIndexOf (s : String) (c : Char) : Int :=
  match s.data.reverse.findIdx? (fun x => x == c) with
  | some i => (s.data.length : Int) - 1 - i
  | none => -1

/-- substr(start) for a non-negative start index. -/
def jsSubstrFrom (s : String) (start : Int) : String :=
  jsDrop s start.toNat

/-- The suffix after the last dot: normalized.substr(normalized.lastIndexOf('.') + 1). -/
def tldOf (normalized : String) : String :=
  jsSubstrFrom normalized (jsLastIndexOf normalized '.' + 1)

/-- The property names a plain object literal inherits from Object.prototype
in the target runtime (browser/Node): the constructor reference, the standard
methods, and the Annex B accessor helpers. Reading any of these on the
literal yields a function or object, which is truthy. -/
def objectPrototypeKeys : List String :=
  ["constructor", "hasOwnProperty", "isPrototypeOf", "propertyIsEnumerable",
   "toLocaleString", "toString", "valueOf", "__proto__",
   "__defineGetter__", "__defineSetter__", "__lookupGetter__", "__lookupSetter__"]

/-- Truthiness of validTLDs[tld] for validTLDs = \x7beth: true, test: true, reverse: true\x7d:
a JavaScript property read falls through to the prototype chain, so besides
the three own properties (value true), every Object.prototype member is found
and is truthy. -/
def validTLDLookup (tld : String) : Bool :=
  (tld == "eth") || (tld == "test") || (tld == "reverse") ||
    objectPrototypeKeys.contains tld

/-- Body of isValidENSName before the catch: the external normaliser may
throw, and is only invoked when the length guard already passed. -/
def ensNameBody (normalise : String → Except String String) (s : String) : Except String Bool :=
  if s.length > 6 then
    match normalise s with
    | Except.error e => Except.error e
    | Except.ok n => Except.ok ((!(n == "")) && (!(jsTake s 2 == "0x")))
  else Except.ok false

/-- isValidENSName: the body wrapped in try/catch, exceptions become false. -/
def isValidENSName (normalise : String → Except String String) (s : String) : Bool :=
  match ensNameBody normalise s with
  | Except.ok b => b
  | Except.error _ => false

/-- Body of isValidENSAddress before the catch: normalise, extract the suffix
after the last dot, test membership in the valid TLD table. -/
def ensAddressBody (normalise : String → Except String String) (address : String) : Except String Bool :=
  match normalise address with
  | Except.error e => Except.error e
  | Except.ok normalized => Except.ok (validTLDLookup (tldOf normalized))

/-- isValidENSAddress: the body wrapped in try/catch, exceptions become false. -/
def isValidENSAddress (normalise : String → Except String String) (address : String) : Bool :=
  match ensAddressBody normalise address with
  | Except.ok b => b
  | Except.error _ => false

def isValidENSorEtherAddress (toChecksumAddress : String → String)
    (normalise : String → Except String String) (address : String) : Bool :=
  isValidETHAddress toChecksumAddress address || isValidENSAddress normalise address

/-! ## Keys and paths -/

/-- isValidEncryptedPrivKey: a string of length exactly 128 or 132. -/
def isValidEncryptedPrivKey (privkey : JSValue) : Bool :=
  match privkey with
  | JSValue.str s => (s.length == 128) || (s.length == 132)
  | _ => false

def pathSeparator : String := String.mk ['\'', '/']

/-- isValidPath: split on the two-character separator, accept 3 or 4 parts. -/
def isValidPath (dPath : String) : Bool :=
  ((dPath.splitOn pathSeparator).length == 3) || ((dPath.splitOn pathSeparator).length == 4)

/-! ## Byte code and ABI shape checks (value-returning && chains) -/

def jsStartsWith (s p : String) : Bool :=
  s.data.take p.data.length == p.data

def jsEndsWith (s p : String) : Bool :=
  s.data.reverse.take p.data.length == p.data.reverse

/-- isValidByteCode: byteCode && byteCode.length > 0 && byteCode.length % 2 === 0,
returning the value of the && chain, not necessarily a boolean. -/
def isValidByteCode (byteCode : String) : JSValue :=
  jsAnd (jsAnd (JSValue.str byteCode) (JSValue.boolean (decide (byteCode.length > 0))))
    (JSValue.boolean (byteCode.length % 2 == 0))

/-- isValidAbiJson: abiJson && abiJson.startsWith('[') && abiJson.endsWith(']'),
returning the value of the && chain, not necessarily a boolean. -/
def isValidAbiJson (abiJson : String) : JSValue :=
  jsAnd (jsAnd (JSValue.str abiJson) (JSValue.boolean (jsStartsWith abiJson "[")))
    (JSValue.boolean (jsEndsWith abiJson "]"))

/-! ## ECMAScript number-to-string, parseInt, and numeric predicates -/

/-- Little-endian base-10 digits computed with explicit fuel (n is enough
fuel for n itself), so that the definition is structural and computable. -/
def natDigitsFuel : Nat → Nat → List Nat
  | 0, _ => []
  | f + 1, n => if n = 0 then [] else (n % 10) :: natDigitsFuel f (n / 10)

/-- Little-endian base-10 digits of a natural number (empty for 0). -/
def natDigitsLE (n : Nat) : List Nat := natDigitsFuel n n

/-- The character of a decimal digit. -/
def digitChar (d : Nat) : Char := Char.ofNat (48 + d)

/-- Big-endian decimal rendering of a natural number. -/
def renderNat (n : Nat) : List Char :=
  if n = 0 then ['0'] else (natDigitsLE n).reverse.map digitChar

/-- The positional/exponential formatting of Number::toString(10) from the
ECMAScript specification, given the big-endian significand digit characters
ds (length k, no trailing zero digit) and the decimal-point position n'. -/
def ecmaFormat (ds : List Char) (k : Nat) (en : Int) : List Char :=
  if (k : Int) ≤ en ∧ en ≤ 21 then
    ds ++ List.replicate (en - k).toNat '0'
  else if 0 < en ∧ en ≤ 21 then
    ds.take en.toNat ++ '.' :: ds.drop en.toNat
  else if -6 < en ∧ en ≤ 0 then
    '0' :: '.' :: (List.replicate (-en).toNat '0' ++ ds)
  else
    let expChars := (if en - 1 < 0 then '-' else '+') :: renderNat (en - 1).natAbs
    match ds with
    | [] => []
    | [d] => d :: 'e' :: expChars
    | d :: rest => d :: '.' :: (rest ++ 'e' :: expChars)

/-- Number.prototype.toString for the modelled numbers: the finite value
m * 10 ^ e is brought to its shortest significand (trailing zeros of the
significand stripped) and formatted per the ECMAScript algorithm. -/
def jsNumToString : JSNum → String
  | JSNum.nan => "NaN"
  | JSNum.inf => "Infinity"
  | JSNum.neginf => "-Infinity"
  | JSNum.fin m e =>
      if m = 0 then "0"
      else
        let L := natDigitsLE m.natAbs
        let t := (L.takeWhile (fun d => d = 0)).length
        let sig := L.dropWhile (fun d => d = 0)
        let ds := sig.reverse.map digitChar
        let body := ecmaFormat ds ds.length (e + t + ds.length)
        if m < 0 then String.mk ('-' :: body) else String.mk body

/-- The digit-consuming core of parseInt with radix 10. -/
def parseIntCore (cs : List Char) (neg : Bool) : JSNum :=
  let digs := cs.takeWhile Char.isDigit
  if digs = [] then JSNum.nan
  else
    let v : Nat := digs.foldl (fun acc c => 10 * acc + (c.toNat - 48)) 0
    JSNum.fin (if neg then -(v : Int) else (v : Int)) 0

/-- parseInt(str, 10): trim leading whitespace, read an optional sign, then
the longest prefix of decimal digits; NaN when there is none. -/
def jsParseIntTen (s : String) : JSNum :=
  match s.data.dropWhile Char.isWhitespace with
  | '-' :: rest => parseIntCore rest true
  | '+' :: rest => parseIntCore rest false
  | rest => parseIntCore rest false

/-- Strict equality of two numbers (NaN equals nothing, including itself). -/
def numEq : JSNum → JSNum → Bool
  | JSNum.fin m1 e1, JSNum.fin m2 e2 =>
      if e2 ≤ e1 then m1 * (10 : Int) ^ (e1 - e2).toNat == m2
      else m2 * (10 : Int) ^ (e2 - e1).toNat == m1
  | JSNum.inf, JSNum.inf => true
  | JSNum.neginf, JSNum.neginf => true
  | _, _ => false

def jsIsNaN : JSNum → Bool
  | JSNum.nan => true
  | _ => false

def jsIsFinite : JSNum → Bool
  | JSNum.fin _ _ => true
  | _ => false

/-- The comparison num >= 0 (false on NaN). -/
def jsGeZero : JSNum → Bool
  | JSNum.fin m _ => decide (0 ≤ m)
  | JSNum.inf => true
  | _ => false

/-- isPositiveIntegerOrZero: NaN and infinite inputs fail; otherwise the
number must be >= 0 and equal to parseInt(num.toString(), 10). -/
def isPositiveIntegerOrZero (num : JSNum) : Bool :=
  if jsIsNaN num || !(jsIsFinite num) then false
  else jsGeZero num && numEq (jsParseIntTen (jsNumToString num)) num

/-- Whether a modelled number is a non-negative integer value; this is the
reading of the specification sentence, written independently of the code. -/
def jsNumIsNonnegInt : JSNum → Bool
  | JSNum.fin m e => (0 ≤ m) && ((0 ≤ e) || (m % (10 : Int) ^ (-e).toNat == 0))
  | _ => false

/-- Whether a modelled number is an integer value (the json-schema integer
test x % 1 === 0, false on NaN and the infinities). -/
def jsNumIsInteger : JSNum → Bool
  | JSNum.fin m e => (0 ≤ e) || (m % (10 : Int) ^ (-e).toNat == 0)
  | _ => false

/-! ## isValidRawTx -/

structure TxPropReq where
  name : String
  jsType : String
  lenReq : Bool

/-- The fixed field-requirement list of isValidRawTx. -/
def propReqs : List TxPropReq :=
  [⟨"nonce", "string", true⟩,
   ⟨"gasPrice", "string", true⟩,
   ⟨"gasLimit", "string", true⟩,
   ⟨"to", "string", true⟩,
   ⟨"value", "string", true⟩,
   ⟨"data", "string", false⟩,
   ⟨"chainId", "number", false⟩]

/-- One iteration of the isValidRawTx loop: presence, typeof, and for string
fields the non-emptiness, "0x"-prefix and hex checks. -/
def checkTxProp (rawTx : JSRecord) (p : TxPropReq) : Bool :=
  let value := recGet rawTx p.name
  if !(recHas rawTx p.name) then false
  else if !(jsTypeof value == p.jsType) then false
  else if p.jsType == "string" then
    match value with
    | JSValue.str s =>
        if p.lenReq && (s.length == 0) then false
        else if (!(s.length == 0)) && (!(jsTake s 2 == "0x")) then false
        else isValidHex (JSValue.str s)
    | _ => false
  else true

/-- isValidRawTx: every requirement of the list passes and the record has
exactly as many keys as the requirement list. -/
def isValidRawTx (rawTx : JSRecord) : Bool :=
  propReqs.all (checkTxProp rawTx) && (rawTx.length == propReqs.length)

/-! ## JSON-RPC response validation -/

/-- Validation of one present property against the RpcNode schema; names
outside the declared property set fail (additionalProperties: false). -/
def checkRpcProp (name : String) (v : JSValue) : Bool :=
  if name == "jsonrpc" then
    match v with
    | JSValue.str _ => true
    | _ => false
  else if name == "id" then
    match v with
    | JSValue.str _ => true
    | JSValue.num n => jsNumIsInteger n
    | _ => false
  else if name == "result" then
    match v with
    | JSValue.str _ => true
    | JSValue.arr _ => true
    | _ => false
  else if name == "status" then
    match v with
    | JSValue.str _ => true
    | _ => false
  else if name == "message" then
    match v with
    | JSValue.str s => decide (s.length ≤ 2)
    | _ => false
  else false

/-- The RpcNode schema of the module applied to a response object: every key
must be a declared property and its value must satisfy the declared shape. -/
def schemaRpcNode (r : JSRecord) : Bool :=
  r.all (fun kv => checkRpcProp kv.fst kv.snd)

/-- isValidResult(response, schemaFormat) = v.validate(response, schemaFormat).valid;
the schema-validation engine applied to a fixed schema is modelled as the
corresponding checker function. -/
def isValidResult (response : JSRecord) (schemaFormat : JSRecord → Bool) : Bool :=
  schemaFormat response

mutual

/-- String conversion of a value as in a template literal. -/
def jsDisplay : JSValue → String
  | JSValue.str s => s
  | JSValue.num n => jsNumToString n
  | JSValue.boolean b => if b then "true" else "false"
  | JSValue.null => "null"
  | JSValue.undefined => "undefined"
  | JSValue.obj _ => "[object Object]"
  | JSValue.arr es => jsDisplayArr es

/-- Array toString: elements joined with commas, null and undefined elements
rendered empty. -/
def jsDisplayArr : List JSValue → String
  | [] => ""
  | [JSValue.null] => ""
  | [JSValue.undefined] => ""
  | [v] => jsDisplay v
  | JSValue.null :: rest => "," ++ jsDisplayArr rest
  | JSValue.undefined :: rest => "," ++ jsDisplayArr rest
  | v :: rest => jsDisplay v ++ "," ++ jsDisplayArr rest

end

/-- formatErrors: with a truthy error member, "<error.message> <error.data>";
otherwise the generic "Invalid <apiType> Error". -/
def formatErrors (response : JSRecord) (apiType : String) : String :=
  let err := recGet response "error"
  if truthy err then
    jsDisplay (getFieldOf err "message") ++ " " ++ jsDisplay (getFieldOf err "data")
  else "Invalid " ++ apiType ++ " Error"

/-- The bound checker produced by isValidEthCall(response, schemaType): on an
invalid response it calls the fallback when one is given and throws the
formatted error otherwise; a valid response is returned unchanged. -/
def isValidEthCall (response : JSRecord) (schemaType : JSRecord → Bool)
    (apiName : String) (cb : Option (JSRecord → JSValue)) : Except String JSValue :=
  if !(isValidResult response schemaType) then
    match cb with
    | some f => Except.ok (f response)
    | none => Except.error (formatErrors response apiName)
  else Except.ok (JSValue.obj response)

def isValidGetBalance (response : JSRecord) : Except String JSValue :=
  isValidEthCall response schemaRpcNode "Get Balance" none

def isValidEstimateGas (response : JSRecord) : Except String JSValue :=
  isValidEthCall response schemaRpcNode "Estimate Gas" none

def isValidCallRequest (response : JSRecord) : Except String JSValue :=
  isValidEthCall response schemaRpcNode "Call Request" none

def isValidTokenBalance (response : JSRecord) : Except String JSValue :=
  isValidEthCall response schemaRpcNode "Token Balance"
    (some (fun _ => JSValue.obj [("result", JSValue.str "Failed")]))

def isValidTransactionCount (response : JSRecord) : Except String JSValue :=
  isValidEthCall response schemaRpcNode "Transaction Count" none

def isValidCurrentBlock (response : JSRecord) : Except String JSValue :=
  isValidEthCall response schemaRpcNode "Current Block" none

def isValidRawTxApi (response : JSRecord) : Except String JSValue :=
  isValidEthCall response schemaRpcNode "Raw Tx" none

def isValidSendTransaction (response : JSRecord) : Except String JSValue :=
  isValidEthCall response schemaRpcNode "Send Transaction" none

def isValidSignMessage (response : JSRecord) : Except String JSValue :=
  isValidEthCall response schemaRpcNode "Sign Message" none

def isValidGetAccounts (response : JSRecord) : Except String JSValue :=
  isValidEthCall response schemaRpcNode "Get Accounts" none

def isValidGetNetVersion (response : JSRecord) : Except String JSValue :=
  isValidEthCall response schemaRpcNode "Net Version" none

/-! ## Claim-side predicates (statements of the specification, written from
its words, to be compared with the embedded code) -/

/-- A "0x"-prefixed string of exactly 40 hex digits of the class cls. -/
def prefixedHex40 (cls : Char → Bool) (addr : String) : Prop :=
  jsTake addr 2 = "0x" ∧ (jsDrop addr 2).length = 40 ∧ (jsDrop addr 2).data.all cls = true

/-- A "0x"-prefixed 40-hex-digit string that is neither all-lowercase nor
all-uppercase. -/
def mixedCase40 (addr : String) : Prop :=
  jsTake addr 2 = "0x" ∧ (jsDrop addr 2).length = 40 ∧
    (jsDrop addr 2).data.all hexAnyChar = true ∧
    ¬ ((jsDrop addr 2).data.all hexLowerChar = true) ∧
    ¬ ((jsDrop addr 2).data.all hexUpperChar = true)

/-- The hex-validator acceptance condition in the words of the specification:
the empty string, or all hex digits after stripping an optional "0x" prefix
and uppercasing. -/
def hexStrSpec (s : String) : Prop :=
  s = "" ∨ (jsToUpper (stripOpt0x s)).data.all hexDigitUpperChar = true

/-- The requirement of the claim on one string field of a raw transaction:
present with a string value that is non-empty when required, "0x"-prefixed
when non-empty, and valid hex. -/
def rawTxStringFieldOk (r : JSRecord) (name : String) (nonEmptyReq : Bool) : Prop :=
  ∃ s, recGet r name = JSValue.str s ∧ (nonEmptyReq = true → s ≠ "") ∧
    (s ≠ "" → jsTake s 2 = "0x") ∧ isValidHex (JSValue.str s) = true

/-- The raw-transaction validity condition in the words of the claim: the six
string fields satisfy their string requirements, chainId is a number, and the
record has exactly seven keys. -/
def rawTxClaim (r : JSRecord) : Prop :=
  rawTxStringFieldOk r "nonce" true ∧ rawTxStringFieldOk r "gasPrice" true ∧
  rawTxStringFieldOk r "gasLimit" true ∧ rawTxStringFieldOk r "to" true ∧
  rawTxStringFieldOk r "value" true ∧ rawTxStringFieldOk r "data" false ∧
  (∃ n, recGet r "chainId" = JSValue.num n) ∧ r.length = 7

def sampleRawTx : JSRecord :=
  [("nonce", JSValue.str "0x00"), ("gasPrice", JSValue.str "0x04a817c800"),
   ("gasLimit", JSValue.str "0x5208"),
   ("to", JSValue.str "0x7cb57b5a97eabe94205c07890be4c1ad31e486a8"),
   ("value", JSValue.str "0x00"), ("data", JSValue.str ""),
   ("chainId", JSValue.num (JSNum.fin 1 0))]

def rpcSampleWithError : JSRecord :=
  [("error", JSValue.obj [("message", JSValue.str "bad"), ("data", JSValue.str "x")])]

def rpcSampleNoError : JSRecord := [("message", JSValue.str "abc")]

/-- The value of a big-endian list of decimal digits. -/
def valBE (l : List Nat) : Nat := l.foldl (fun acc d => 10 * acc + d) 0

/-! ## Helper lemmas -/

theorem all_imp_all {p q : Char → Bool} (hpq : ∀ c, p c = true → q c = true)
    {l : List Char} (h : l.all p = true) : l.all q = true := by
  simp only [List.all_eq_true] at *
  exact fun c hc => hpq c (h c hc)

theorem hexLower_le_any (c : Char) (h : hexLowerChar c = true) : hexAnyChar c = true := by
  simp only [hexLowerChar, hexAnyChar, Bool.or_eq_true] at *
  tauto

theorem hexUpper_le_any (c : Char) (h : hexUpperChar c = true) : hexAnyChar c = true := by
  simp only [hexUpperChar, hexAnyChar, Bool.or_eq_true] at *
  tauto

theorem stripOpt0x_of_prefix {s : String} (h : jsTake s 2 = "0x") :
    stripOpt0x s = jsDrop s 2 := by
  simp [stripOpt0x, h]

theorem ne_empty_of_prefix0x {s : String} (h : jsTake s 2 = "0x") : s ≠ "" := by
  intro he
  subst he
  exact absurd h (by decide)

theorem matches40_of_prefixedHex40 {cls : Char → Bool} {addr : String}
    (h : prefixedHex40 cls addr) : matches40 cls addr = true := by
  obtain ⟨h1, h2, h3⟩ := h
  simp [matches40, stripOpt0x_of_prefix h1, h2, h3]

/-! ## C3 -/

/-- C3 counterexample: the all-zero sentinel address is a "0x"-prefixed
40-hex-digit string whose digits all lie in the lowercase class, yet
isValidETHAddress rejects it, so the claim as stated is false. -/
theorem isValidETHAddress_lower_or_upper_cex :
    ¬ (∀ (toChecksumAddress : String → String) (addr : String),
        (prefixedHex40 hexLowerChar addr ∨ prefixedHex40 hexUpperChar addr) →
        isValidETHAddress toChecksumAddress addr = true) := by
  intro h
  have h2 := h id zeroAddress (Or.inl ⟨by decide, by decide, by decide⟩)
  have h3 : isValidETHAddress id zeroAddress = false := by decide
  rw [h2] at h3
  exact Bool.noConfusion h3

/-- C3 amended: every "0x"-prefixed 40-hex-digit string whose digits are all
lowercase or all uppercase, other than the all-zero sentinel, is accepted by
isValidETHAddress regardless of the checksum function; a mixed-case string of
valid length is accepted exactly when it equals its own checksum
re-derivation. -/
theorem isValidETHAddress_case_analysis
    (toChecksumAddress : String → String) (addr : String) :
    ((prefixedHex40 hexLowerChar addr ∨ prefixedHex40 hexUpperChar addr) →
      addr ≠ zeroAddress → isValidETHAddress toChecksumAddress addr = true) ∧
    (mixedCase40 addr →
      (isValidETHAddress toChecksumAddress addr = true ↔ addr = toChecksumAddress addr)) := by
  constructor
  · intro hpre hz
    have h1 : jsTake addr 2 = "0x" := by
      rcases hpre with h | h
      · exact h.1
      · exact h.1
    have hne : addr ≠ "" := ne_empty_of_prefix0x h1
    have hcase : matches40 hexLowerChar addr = true ∨ matches40 hexUpperChar addr = true := by
      rcases hpre with h | h
      · exact Or.inl (matches40_of_prefixedHex40 h)
      · exact Or.inr (matches40_of_prefixedHex40 h)
    have hany : matches40 hexAnyChar addr = true := by
      rcases hpre with h | h
      · exact matches40_of_prefixedHex40
          ⟨h.1, h.2.1, all_imp_all hexLower_le_any h.2.2⟩
      · exact matches40_of_prefixedHex40
          ⟨h.1, h.2.1, all_imp_all hexUpper_le_any h.2.2⟩
    have hor : (matches40 hexLowerChar addr || matches40 hexUpperChar addr) = true := by
      rcases hcase with h | h <;> simp [h]
    simp [isValidETHAddress, hne, hz, validateEtherAddress, h1, hany, hor]
  · rintro ⟨h1, h2, h3, h4, h5⟩
    have hne : addr ≠ "" := ne_empty_of_prefix0x h1
    have hz : addr ≠ zeroAddress := by
      intro he
      subst he
      exact h4 (by decide)
    have hany : matches40 hexAnyChar addr = true :=
      matches40_of_prefixedHex40 ⟨h1, h2, h3⟩
    have hlow : matches40 hexLowerChar addr = false := by
      simp only [matches40, stripOpt0x_of_prefix h1]
      simp [h4]
    have hup : matches40 hexUpperChar addr = false := by
      simp only [matches40, stripOpt0x_of_prefix h1]
      simp [h5]
    simp [isValidETHAddress, hne, hz, validateEtherAddress, h1, hany, hlow, hup,
      isChecksumAddress, beq_iff_eq]

theorem isValidETHAddress_case_analysis_witness :
    (prefixedHex40 hexLowerChar "0xabcdef0123456789abcdef0123456789abcdef01" ∧
      "0xabcdef0123456789abcdef0123456789abcdef01" ≠ zeroAddress ∧
      isValidETHAddress id "0xabcdef0123456789abcdef0123456789abcdef01" = true) ∧
    (mixedCase40 "0xAbcdef0123456789abcdef0123456789abcdef01" ∧
      (isValidETHAddress id "0xAbcdef0123456789abcdef0123456789abcdef01" = true ↔
        "0xAbcdef0123456789abcdef0123456789abcdef01" =
          id "0xAbcdef0123456789abcdef0123456789abcdef01")) :=
  ⟨⟨⟨by decide, by decide, by decide⟩, by decide,
      (isValidETHAddress_case_analysis id _).1
        (Or.inl ⟨by decide, by decide, by decide⟩) (by decide)⟩,
   ⟨⟨by decide, by decide, by decide, by decide, by decide⟩,
      (isValidETHAddress_case_analysis id _).2
        ⟨by decide, by decide, by decide, by decide, by decide⟩⟩⟩

/-! ## C4 -/

/-- C4: isValidETHAddress rejects the falsy string input (the empty string)
and the all-zero sentinel address, whatever the checksum function does. -/
theorem isValidETHAddress_falsy_and_sentinel (toChecksumAddress : String → String) :
    isValidETHAddress toChecksumAddress "" = false ∧
    isValidETHAddress toChecksumAddress zeroAddress = false :=
  ⟨rfl, rfl⟩

/-! ## C6 -/

/-- C6: isValidHex accepts exactly the string values that are empty or whose
content, after stripping an optional "0x" prefix and uppercasing, consists of
zero or more hex digits; every non-string value is rejected. -/
theorem isValidHex_characterization (v : JSValue) :
    isValidHex v = true ↔ ∃ s, v = JSValue.str s ∧ hexStrSpec s := by
  cases v <;> simp [isValidHex, hexStrSpec]
  case str s =>
    by_cases hs : s = "" <;> simp [hs, stripOpt0x]

/-! ## C7 -/

/-- C7 counterexample: the claimed equivalence with the allow-list
\x7beth, test, reverse\x7d is false of the code: the lookup validTLDs[tld] walks the
prototype chain, so for the input "foo.constructor" (normalised unchanged)
the suffix "constructor" finds Object.prototype.constructor, which is truthy,
and isValidENSAddress returns true although the suffix is outside the
allow-list. -/
theorem isValidENSAddress_allowlist_cex :
    ¬ (∀ (normalise : String → Except String String) (address : String),
        isValidENSAddress normalise address = true ↔
          ∃ n, normalise address = Except.ok n ∧
            (tldOf n = "eth" ∨ tldOf n = "test" ∨ tldOf n = "reverse")) := by
  intro h
  have htrue : isValidENSAddress (fun s => Except.ok s) "foo.constructor" = true := by decide
  obtain ⟨n, hn, htld⟩ := (h (fun s => Except.ok s) "foo.constructor").mp htrue
  have hneq : n = "foo.constructor" := by
    have : Except.ok (ε := String) "foo.constructor" = Except.ok n := hn
    injection this with h2
    exact h2.symm
  subst hneq
  rcases htld with h2 | h2 | h2 <;> exact absurd h2 (by decide)

/-- C7 amended: isValidENSAddress accepts exactly the inputs whose
normalisation succeeds and whose suffix after the last dot of the normalised
form is eth, test or reverse, or else one of the property names inherited
from Object.prototype (constructor, toString, valueOf and the rest), because
the allow-list lookup validTLDs[tld] walks the prototype chain; when the
normaliser throws, the catch makes the result false, so the equivalence also
covers the exception case. -/
theorem isValidENSAddress_characterization_amended
    (normalise : String → Except String String) (address : String) :
    isValidENSAddress normalise address = true ↔
      ∃ n, normalise address = Except.ok n ∧
        (tldOf n = "eth" ∨ tldOf n = "test" ∨ tldOf n = "reverse" ∨
          tldOf n ∈ objectPrototypeKeys) := by
  cases hn : normalise address <;>
    simp [isValidENSAddress, ensAddressBody, hn, validTLDLookup, or_assoc]

/-! ## C9 -/

theorem string_mk_data (s : String) : String.mk s.data = s := rfl

/-- C9: when the normalised form contains no dot, lastIndexOf is -1 and the
suffix taken from index 0 is the whole string, so a dot-less normalised form
equal to eth, test or reverse is accepted by isValidENSAddress. -/
theorem isValidENSAddress_dotless
    (normalise : String → Except String String) (address n : String)
    (hok : normalise address = Except.ok n)
    (hnd : n.data.all (fun c => !(c == '.')) = true) :
    tldOf n = n ∧
      ((n = "eth" ∨ n = "test" ∨ n = "reverse") →
        isValidENSAddress normalise address = true) := by
  have hall : ∀ x ∈ n.data.reverse, (x == '.') = false := by
    intro x hx
    have hx' : x ∈ n.data := List.mem_reverse.mp hx
    have := (List.all_eq_true.mp hnd) x hx'
    simpa using this
  have hfind : List.findIdx? (fun x => x == '.') n.data.reverse = none :=
    List.findIdx?_eq_none_iff.mpr hall
  have htld : tldOf n = n := by
    simp [tldOf, jsLastIndexOf, hfind, jsSubstrFrom, jsDrop, string_mk_data]
  refine ⟨htld, ?_⟩
  intro hmem
  have hlook : validTLDLookup (tldOf n) = true := by
    rw [htld]
    rcases hmem with h | h | h <;> simp [validTLDLookup, h]
  simp [isValidENSAddress, ensAddressBody, hok, hlook]

theorem isValidENSAddress_dotless_witness :
    tldOf "eth" = "eth" ∧
      isValidENSAddress (fun _ => Except.ok "eth") "someplainname" = true := by
  have h := isValidENSAddress_dotless (fun _ => Except.ok "eth") "someplainname" "eth"
    rfl (by decide)
  exact ⟨h.1, h.2 (Or.inl rfl)⟩

/-! ## C10 -/

/-- C10: on the empty (falsy) string, isValidByteCode and isValidAbiJson
return the input string itself, not the boolean false; on a non-empty string
they return an actual boolean. -/
theorem byteCode_abiJson_value_shapes :
    (isValidByteCode "" = JSValue.str "" ∧ isValidAbiJson "" = JSValue.str "") ∧
    (isValidByteCode "" ≠ JSValue.boolean false ∧
      isValidAbiJson "" ≠ JSValue.boolean false) ∧
    (∀ s : String, s ≠ "" →
      (∃ b, isValidByteCode s = JSValue.boolean b) ∧
      (∃ b, isValidAbiJson s = JSValue.boolean b)) := by
  refine ⟨⟨rfl, rfl⟩,
    ⟨fun h => JSValue.noConfusion h, fun h => JSValue.noConfusion h⟩, ?_⟩
  intro s hs
  have ht : truthy (JSValue.str s) = true := by simp [truthy, hs]
  constructor
  · cases hb : decide (s.length > 0) <;>
      simp [isValidByteCode, jsAnd, ht, hb, truthy, hs]
  · cases hb : jsStartsWith s "[" <;>
      simp [isValidAbiJson, jsAnd, ht, hb, truthy, hs]

theorem byteCode_abiJson_value_shapes_witness :
    ("ab" : String) ≠ "" ∧
      (∃ b, isValidByteCode "ab" = JSValue.boolean b) ∧
      (∃ b, isValidAbiJson "ab" = JSValue.boolean b) :=
  ⟨by decide,
    (byteCode_abiJson_value_shapes.2.2 "ab" (by decide)).1,
    (byteCode_abiJson_value_shapes.2.2 "ab" (by decide)).2⟩

/-! ## C1 -/

theorem recHas_of_recGet_str {r : JSRecord} {name : String} {s : String}
    (h : recGet r name = JSValue.str s) : recHas r name = true := by
  unfold recGet at h
  cases hf : r.find? (fun kv => kv.fst == name) with
  | none => rw [hf] at h; exact JSValue.noConfusion h
  | some kv =>
      have hp := List.find?_some hf
      have hm := List.mem_of_find?_eq_some hf
      exact List.any_eq_true.mpr ⟨kv, hm, hp⟩

theorem recHas_of_recGet_num {r : JSRecord} {name : String} {n : JSNum}
    (h : recGet r name = JSValue.num n) : recHas r name = true := by
  unfold recGet at h
  cases hf : r.find? (fun kv => kv.fst == name) with
  | none => rw [hf] at h; exact JSValue.noConfusion h
  | some kv =>
      have hp := List.find?_some hf
      have hm := List.mem_of_find?_eq_some hf
      exact List.any_eq_true.mpr ⟨kv, hm, hp⟩

theorem checkTxProp_string_iff (r : JSRecord) (name : String) (req : Bool) :
    checkTxProp r ⟨name, "string", req⟩ = true ↔ rawTxStringFieldOk r name req := by
  unfold checkTxProp rawTxStringFieldOk
  cases hh : recHas r name with
  | false =>
      simp only [hh, Bool.not_false, if_true, Bool.false_eq_true, false_iff]
      rintro ⟨s, hs, -⟩
      rw [recHas_of_recGet_str hs] at hh
      exact Bool.noConfusion hh
  | true =>
      cases hv : recGet r name with
      | str s =>
          simp only [hh, hv, jsTypeof]
          by_cases hse : s = ""
          · subst hse
            cases req <;> simp [isValidHex]
          · have hlen : (("" : String).length == 0) = true := by decide
            have hslen : (s.length == 0) = false := by
              simp only [beq_eq_false_iff_ne, ne_eq]
              intro h0
              exact hse (String.ext (List.length_eq_zero.mp h0))
            by_cases hpre : jsTake s 2 = "0x"
            · simp [hslen, hpre, hse]
            · simp [hslen, hpre, hse]
      | num n => simp [hh, hv, jsTypeof]
      | boolean b => simp [hh, hv, jsTypeof]
      | null => simp [hh, hv, jsTypeof]
      | undefined => simp [hh, hv, jsTypeof]
      | obj fields => simp [hh, hv, jsTypeof]
      | arr es => simp [hh, hv, jsTypeof]

theorem checkTxProp_number_iff (r : JSRecord) (name : String) :
    checkTxProp r ⟨name, "number", false⟩ = true ↔ ∃ n, recGet r name = JSValue.num n := by
  unfold checkTxProp
  cases hh : recHas r name with
  | false =>
      simp only [hh, Bool.not_false, if_true, Bool.false_eq_true, false_iff]
      rintro ⟨n, hn⟩
      rw [recHas_of_recGet_num hn] at hh
      exact Bool.noConfusion hh
  | true =>
      cases hv : recGet r name with
      | str s => simp [hh, hv, jsTypeof]
      | num n => simp [hh, hv, jsTypeof]
      | boolean b => simp [hh, hv, jsTypeof]
      | null => simp [hh, hv, jsTypeof]
      | undefined => simp [hh, hv, jsTypeof]
      | obj fields => simp [hh, hv, jsTypeof]
      | arr es => simp [hh, hv, jsTypeof]

/-- C1: a raw-transaction record (keys unique, as in a JavaScript object) is
accepted by isValidRawTx exactly when the six string fields are present with
correctly shaped string values (non-empty except data, "0x"-prefixed when
non-empty, valid hex), chainId is present with a number value, and the record
carries exactly seven keys; in particular a missing required field or an
extra field makes it false. -/
theorem isValidRawTx_characterization (rawTx : JSRecord)
    (_hkeys : (rawTx.map Prod.fst).Nodup) :
    isValidRawTx rawTx = true ↔ rawTxClaim rawTx := by
  unfold isValidRawTx rawTxClaim propReqs
  simp only [List.all_cons, List.all_nil, Bool.and_eq_true, Bool.and_true,
    checkTxProp_string_iff, checkTxProp_number_iff, beq_iff_eq, List.length_cons,
    List.length_nil]
  tauto

theorem isValidRawTx_characterization_witness :
    (sampleRawTx.map Prod.fst).Nodup ∧
    (isValidRawTx sampleRawTx = true ↔ rawTxClaim sampleRawTx) ∧
    isValidRawTx sampleRawTx = true :=
  ⟨by decide, isValidRawTx_characterization sampleRawTx (by decide), by decide⟩

/-! ## C2 -/

/-- C2: the bound checker of isValidEthCall returns the fallback result on an
invalid response when a fallback is supplied; with no fallback it throws
"<error.message> <error.data>" when the response carries a truthy error
member and "Invalid <apiLabel> Error" otherwise; a valid response is returned
unchanged; the Token Balance call-site's fallback yields the record with
result "Failed", and the Get Balance call-site has no fallback. -/
theorem isValidEthCall_behavior (response : JSRecord) (sch : JSRecord → Bool)
    (apiName : String) :
    (∀ f, sch response = false →
        isValidEthCall response sch apiName (some f) = Except.ok (f response)) ∧
    (sch response = false → truthy (recGet response "error") = true →
        isValidEthCall response sch apiName none =
          Except.error (jsDisplay (getFieldOf (recGet response "error") "message") ++ " " ++
            jsDisplay (getFieldOf (recGet response "error") "data"))) ∧
    (sch response = false → truthy (recGet response "error") = false →
        isValidEthCall response sch apiName none =
          Except.error ("Invalid " ++ apiName ++ " Error")) ∧
    (∀ cb, sch response = true →
        isValidEthCall response sch apiName cb = Except.ok (JSValue.obj response)) ∧
    (schemaRpcNode response = false →
        isValidTokenBalance response =
          Except.ok (JSValue.obj [("result", JSValue.str "Failed")])) ∧
    (schemaRpcNode response = false → truthy (recGet response "error") = false →
        isValidGetBalance response = Except.error "Invalid Get Balance Error") := by
  refine ⟨?_, ?_, ?_, ?_, ?_, ?_⟩
  · intro f hsch
    simp [isValidEthCall, isValidResult, hsch]
  · intro hsch herr
    simp [isValidEthCall, isValidResult, hsch, formatErrors, herr]
  · intro hsch herr
    simp [isValidEthCall, isValidResult, hsch, formatErrors, herr]
  · intro cb hsch
    simp [isValidEthCall, isValidResult, hsch]
  · intro hsch
    simp [isValidTokenBalance, isValidEthCall, isValidResult, hsch]
  · intro hsch herr
    simp [isValidGetBalance, isValidEthCall, isValidResult, hsch, formatErrors, herr]

theorem isValidEthCall_behavior_witness :
    (schemaRpcNode rpcSampleWithError = false ∧
      isValidTokenBalance rpcSampleWithError =
        Except.ok (JSValue.obj [("result", JSValue.str "Failed")]) ∧
      truthy (recGet rpcSampleWithError "error") = true ∧
      isValidEthCall rpcSampleWithError schemaRpcNode "Get Balance" none =
        Except.error (jsDisplay (getFieldOf (recGet rpcSampleWithError "error") "message") ++
          " " ++ jsDisplay (getFieldOf (recGet rpcSampleWithError "error") "data"))) ∧
    (schemaRpcNode rpcSampleNoError = false ∧
      truthy (recGet rpcSampleNoError "error") = false ∧
      isValidGetBalance rpcSampleNoError = Except.error "Invalid Get Balance Error") :=
  ⟨⟨by decide,
    (isValidEthCall_behavior rpcSampleWithError schemaRpcNode "Token Balance").2.2.2.2.1
      (by decide),
    by decide,
    (isValidEthCall_behavior rpcSampleWithError schemaRpcNode "Get Balance").2.1
      (by decide) (by decide)⟩,
   ⟨by decide, by decide,
    (isValidEthCall_behavior rpcSampleNoError schemaRpcNode "Get Balance").2.2.2.2.2
      (by decide) (by decide)⟩⟩

/-! ## C8 -/

/-- C8: the format checks that invoke a throwing collaborator catch the
exception and return a boolean (false on a throw, the body's result
otherwise), so no format check ever propagates an exception; the only
throwing path of the module is the RPC wrapper, and it throws only when the
schema validation fails and no fallback callback was supplied. The remaining
format checks of the module are Bool-valued total functions by construction. -/
theorem validators_never_throw :
    (∀ (normalise : String → Except String String) (s e : String),
        ensNameBody normalise s = Except.error e → isValidENSName normalise s = false) ∧
    (∀ (normalise : String → Except String String) (s : String) (b : Bool),
        ensNameBody normalise s = Except.ok b → isValidENSName normalise s = b) ∧
    (∀ (normalise : String → Except String String) (a e : String),
        ensAddressBody normalise a = Except.error e → isValidENSAddress normalise a = false) ∧
    (∀ (normalise : String → Except String String) (a : String) (b : Bool),
        ensAddressBody normalise a = Except.ok b → isValidENSAddress normalise a = b) ∧
    (∀ (response : JSRecord) (sch : JSRecord → Bool) (apiName : String)
        (cb : Option (JSRecord → JSValue)) (msg : String),
        isValidEthCall response sch apiName cb = Except.error msg →
          sch response = false ∧ cb = none) := by
  refine ⟨?_, ?_, ?_, ?_, ?_⟩
  · intro normalise s e h
    simp [isValidENSName, h]
  · intro normalise s b h
    simp [isValidENSName, h]
  · intro normalise a e h
    simp [isValidENSAddress, h]
  · intro normalise a b h
    simp [isValidENSAddress, h]
  · intro response sch apiName cb msg h
    cases hsch : sch response with
    | false =>
        cases cb with
        | none => exact ⟨rfl, rfl⟩
        | some f =>
            simp [isValidEthCall, isValidResult, hsch] at h
    | true =>
        simp [isValidEthCall, isValidResult, hsch] at h

theorem validators_never_throw_witness :
    (ensNameBody (fun _ => Except.error "boom") "aaaaaaa" = Except.error "boom" ∧
      isValidENSName (fun _ => Except.error "boom") "aaaaaaa" = false) ∧
    (isValidEthCall rpcSampleNoError schemaRpcNode "Get Balance" none =
        Except.error "Invalid Get Balance Error" ∧
      schemaRpcNode rpcSampleNoError = false ∧
      (none : Option (JSRecord → JSValue)) = none) :=
  ⟨⟨rfl, validators_never_throw.1 (fun _ => Except.error "boom") "aaaaaaa" "boom" rfl⟩,
   ⟨rfl, validators_never_throw.2.2.2.2 rpcSampleNoError schemaRpcNode "Get Balance" none
      "Invalid Get Balance Error" rfl⟩⟩

/-! ## C5 infrastructure: decimal digit values -/

theorem foldl_valBE (l : List Nat) : ∀ acc,
    l.foldl (fun acc d => 10 * acc + d) acc = acc * 10 ^ l.length + valBE l := by
  induction l with
  | nil => intro acc; simp [valBE]
  | cons d l ih =>
      intro acc
      have h1 : (d :: l).foldl (fun acc d => 10 * acc + d) acc =
          l.foldl (fun acc d => 10 * acc + d) (10 * acc + d) := rfl
      have h2 : valBE (d :: l) = l.foldl (fun acc d => 10 * acc + d) d := by
        simp [valBE, List.foldl_cons]
      rw [h1, ih, h2, ih, List.length_cons]
      ring

theorem valBE_cons (d : Nat) (l : List Nat) :
    valBE (d :: l) = d * 10 ^ l.length + valBE l := by
  have h : valBE (d :: l) = l.foldl (fun acc d => 10 * acc + d) d := by
    simp [valBE, List.foldl_cons]
  rw [h, foldl_valBE]

theorem valBE_append (l1 l2 : List Nat) :
    valBE (l1 ++ l2) = valBE l1 * 10 ^ l2.length + valBE l2 := by
  have h : valBE (l1 ++ l2) = l2.foldl (fun acc d => 10 * acc + d) (valBE l1) := by
    simp [valBE, List.foldl_append]
  rw [h, foldl_valBE]

theorem valBE_replicate_zero (t : Nat) : valBE (List.replicate t 0) = 0 := by
  induction t with
  | zero => rfl
  | succ t ih =>
      have h : List.replicate (t + 1) 0 = 0 :: List.replicate t 0 := rfl
      rw [h, valBE_cons, ih]
      simp

theorem valBE_reverse (l : List Nat) : valBE l.reverse = Nat.ofDigits 10 l := by
  induction l with
  | nil => rfl
  | cons d l ih =>
      rw [List.reverse_cons, valBE_append, ih, Nat.ofDigits_cons]
      simp [valBE, valBE_cons]
      ring

theorem valBE_lt (l : List Nat) (h : ∀ d ∈ l, d < 10) : valBE l < 10 ^ l.length := by
  induction l with
  | nil => simp [valBE]
  | cons d l ih =>
      rw [valBE_cons]
      have hd : d < 10 := h d (List.mem_cons_self d l)
      have hl : valBE l < 10 ^ l.length := ih (fun x hx => h x (List.mem_cons_of_mem d hx))
      have : d * 10 ^ l.length + valBE l < (d + 1) * 10 ^ l.length := by
        nlinarith [pow_pos (by norm_num : (0:Nat) < 10) l.length]
      calc d * 10 ^ l.length + valBE l < (d + 1) * 10 ^ l.length := this
        _ ≤ 10 * 10 ^ l.length := Nat.mul_le_mul_right _ hd
        _ = 10 ^ (d :: l).length := by rw [List.length_cons]; ring

theorem valBE_ge_head (d : Nat) (l : List Nat) : d * 10 ^ l.length ≤ valBE (d :: l) := by
  rw [valBE_cons]; omega

theorem natDigitsFuel_eq : ∀ (f n : Nat), n ≤ f → natDigitsFuel f n = Nat.digits 10 n := by
  intro f
  induction f with
  | zero =>
      intro n hn
      have : n = 0 := Nat.le_zero.mp hn
      subst this
      simp [natDigitsFuel]
  | succ f ih =>
      intro n hn
      by_cases h0 : n = 0
      · subst h0; simp [natDigitsFuel]
      · have hpos : 0 < n := Nat.pos_of_ne_zero h0
        have hdiv : n / 10 ≤ f := by
          have : n / 10 < n := Nat.div_lt_self hpos (by norm_num)
          omega
        have : natDigitsFuel (f + 1) n = (n % 10) :: natDigitsFuel f (n / 10) := by
          simp [natDigitsFuel, h0]
        rw [this, ih _ hdiv, Nat.digits_def' (by norm_num : 1 < 10) hpos]

theorem natDigitsLE_eq (n : Nat) : natDigitsLE n = Nat.digits 10 n :=
  natDigitsFuel_eq n n le_rfl

/-! ## C5 infrastructure: characters and parsing -/

theorem digitChar_isDigit {d : Nat} (h : d < 10) : (digitChar d).isDigit = true := by
  interval_cases d <;> decide

theorem digitChar_toNat {d : Nat} (h : d < 10) : (digitChar d).toNat - 48 = d := by
  interval_cases d <;> decide

theorem digitChar_not_ws {d : Nat} (h : d < 10) : (digitChar d).isWhitespace = false := by
  interval_cases d <;> decide

theorem digitChar_ne_minus {d : Nat} (h : d < 10) : digitChar d ≠ '-' := by
  interval_cases d <;> decide

theorem digitChar_ne_plus {d : Nat} (h : d < 10) : digitChar d ≠ '+' := by
  interval_cases d <;> decide

theorem takeWhile_append_all {p : Char → Bool} (cs rest : List Char)
    (h : ∀ c ∈ cs, p c = true) :
    (cs ++ rest).takeWhile p = cs ++ rest.takeWhile p := by
  induction cs with
  | nil => simp
  | cons c cs ih =>
      have hc : p c = true := h c (List.mem_cons_self c cs)
      have hrest : ∀ x ∈ cs, p x = true := fun x hx => h x (List.mem_cons_of_mem c hx)
      simp [List.takeWhile_cons, hc, ih hrest]

theorem dropWhile_head_false {α : Type} {p : α → Bool} :
    ∀ {l x xs}, List.dropWhile p l = x :: xs → p x = false := by
  intro l
  induction l with
  | nil => intro x xs h; exact absurd h (by simp)
  | cons a l ih =>
      intro x xs h
      rw [List.dropWhile_cons] at h
      by_cases ha : p a = true
      · rw [if_pos ha] at h
        exact ih h
      · rw [if_neg ha] at h
        have : a = x := (List.cons.injEq _ _ _ _).mp h |>.1
        subst this
        exact Bool.eq_false_iff.mpr ha

theorem parse_foldl_digits (ds : List Nat) (h : ∀ d ∈ ds, d < 10) : ∀ acc,
    (ds.map digitChar).foldl (fun acc c => 10 * acc + (c.toNat - 48)) acc =
      ds.foldl (fun acc d => 10 * acc + d) acc := by
  induction ds with
  | nil => intro acc; rfl
  | cons d ds ih =>
      intro acc
      have hd : d < 10 := h d (List.mem_cons_self d ds)
      have hds : ∀ x ∈ ds, x < 10 := fun x hx => h x (List.mem_cons_of_mem d hx)
      simp only [List.map_cons, List.foldl_cons, digitChar_toNat hd]
      exact ih hds _

theorem parseIntCore_digits (dsNat : List Nat) (h : ∀ d ∈ dsNat, d < 10)
    (hne : dsNat ≠ []) (rest : List Char) (hrest : rest.takeWhile Char.isDigit = []) :
    parseIntCore (dsNat.map digitChar ++ rest) false = JSNum.fin (valBE dsNat) 0 := by
  unfold parseIntCore
  have htake : (dsNat.map digitChar ++ rest).takeWhile Char.isDigit = dsNat.map digitChar := by
    rw [takeWhile_append_all _ _ (by
      intro c hc
      obtain ⟨d, hd, rfl⟩ := List.mem_map.mp hc
      exact digitChar_isDigit (h d hd)), hrest, List.append_nil]
  rw [htake]
  have hmapne : dsNat.map digitChar ≠ [] := by
    intro hcon
    exact hne (List.map_eq_nil_iff.mp hcon)
  rw [if_neg hmapne]
  rw [parse_foldl_digits dsNat h 0]
  rfl

theorem jsParseIntTen_digitChars (dsNat : List Nat) (h : ∀ d ∈ dsNat, d < 10)
    (hne : dsNat ≠ []) (rest : List Char) (hrest : rest.takeWhile Char.isDigit = []) :
    jsParseIntTen (String.mk (dsNat.map digitChar ++ rest)) = JSNum.fin (valBE dsNat) 0 := by
  obtain ⟨d0, ds', rfl⟩ : ∃ d0 ds', dsNat = d0 :: ds' := by
    cases dsNat with
    | nil => exact absurd rfl hne
    | cons d0 ds' => exact ⟨d0, ds', rfl⟩
  have hd0 : d0 < 10 := h d0 (List.mem_cons_self _ _)
  have hcs : (d0 :: ds').map digitChar ++ rest = digitChar d0 :: (ds'.map digitChar ++ rest) := by
    simp
  have hdw : (digitChar d0 :: (ds'.map digitChar ++ rest)).dropWhile Char.isWhitespace
      = digitChar d0 :: (ds'.map digitChar ++ rest) := by
    rw [List.dropWhile_cons, digitChar_not_ws hd0]
    simp
  rw [hcs]
  unfold jsParseIntTen
  dsimp only
  rw [hdw]
  split
  · next rest' heq =>
      have : digitChar d0 = '-' := (List.cons.injEq _ _ _ _).mp heq |>.1
      exact absurd this (digitChar_ne_minus hd0)
  · next rest' heq =>
      have : digitChar d0 = '+' := (List.cons.injEq _ _ _ _).mp heq |>.1
      exact absurd this (digitChar_ne_plus hd0)
  · next heq1 heq2 =>
      rw [← hcs]
      exact parseIntCore_digits _ h hne rest hrest

/-! ## C5 infrastructure: the significand decomposition -/

theorem ofDigits_replicate_zero (t : Nat) : Nat.ofDigits 10 (List.replicate t 0) = 0 := by
  induction t with
  | zero => rfl
  | succ t ih =>
      have h : List.replicate (t + 1) (0 : Nat) = 0 :: List.replicate t 0 := rfl
      rw [h, Nat.ofDigits_cons, ih]

theorem sig_facts (a : Nat) (ha : a ≠ 0) :
    a = 10 ^ ((natDigitsLE a).takeWhile (fun d => d = 0)).length *
        Nat.ofDigits 10 ((natDigitsLE a).dropWhile (fun d => d = 0)) ∧
    ((natDigitsLE a).dropWhile (fun d => d = 0)) ≠ [] ∧
    (∀ d ∈ (natDigitsLE a).dropWhile (fun d => d = 0), d < 10) ∧
    ¬ (10 ∣ Nat.ofDigits 10 ((natDigitsLE a).dropWhile (fun d => d = 0))) ∧
    (∀ x, ((natDigitsLE a).dropWhile (fun d => d = 0)).getLast? = some x → x ≠ 0) := by
  have hL : natDigitsLE a = Nat.digits 10 a := natDigitsLE_eq a
  have hsplit : (natDigitsLE a).takeWhile (fun d => d = 0) ++
      (natDigitsLE a).dropWhile (fun d => d = 0) = natDigitsLE a :=
    List.takeWhile_append_dropWhile _ _
  have hT : (natDigitsLE a).takeWhile (fun d => d = 0) =
      List.replicate ((natDigitsLE a).takeWhile (fun d => d = 0)).length 0 := by
    apply List.eq_replicate_of_mem
    intro b hb
    have := List.mem_takeWhile_imp hb
    exact of_decide_eq_true this
  have hval : a = 10 ^ ((natDigitsLE a).takeWhile (fun d => d = 0)).length *
      Nat.ofDigits 10 ((natDigitsLE a).dropWhile (fun d => d = 0)) := by
    conv_lhs => rw [← Nat.ofDigits_digits 10 a, ← hL, ← hsplit]
    rw [Nat.ofDigits_append]
    conv_lhs => rw [hT]
    rw [ofDigits_replicate_zero, List.length_replicate]
    ring
  have hne : ((natDigitsLE a).dropWhile (fun d => d = 0)) ≠ [] := by
    intro hcon
    apply ha
    rw [hcon] at hval
    simpa using hval
  have hlt : ∀ d ∈ (natDigitsLE a).dropWhile (fun d => d = 0), d < 10 := by
    intro d hd
    have hmem : d ∈ natDigitsLE a := (List.dropWhile_sublist _).mem hd
    rw [hL] at hmem
    exact Nat.digits_lt_base (by norm_num) hmem
  have hnd : ¬ (10 ∣ Nat.ofDigits 10 ((natDigitsLE a).dropWhile (fun d => d = 0))) := by
    obtain ⟨h0, tail, hcons⟩ : ∃ h0 tail,
        (natDigitsLE a).dropWhile (fun d => d = 0) = h0 :: tail := by
      cases hc : (natDigitsLE a).dropWhile (fun d => d = 0) with
      | nil => exact absurd hc hne
      | cons h0 tail => exact ⟨h0, tail, rfl⟩
    have hh0 : h0 ≠ 0 := by
      have := dropWhile_head_false hcons
      intro hcon
      subst hcon
      simp at this
    have hh0lt : h0 < 10 := hlt h0 (by rw [hcons]; exact List.mem_cons_self _ _)
    rw [hcons, Nat.ofDigits_cons]
    rw [Nat.dvd_iff_mod_eq_zero]
    omega
  refine ⟨hval, hne, hlt, hnd, ?_⟩
  intro x hx hx0
  subst hx0
  rw [hL] at hx hne
  have hLlast : (Nat.digits 10 a).getLast? = some 0 := by
    rw [← List.takeWhile_append_dropWhile (fun d => decide (d = 0)) (Nat.digits 10 a)]
    rw [List.getLast?_append_of_ne_nil _ hne, hx]
  have hLne : Nat.digits 10 a ≠ [] := Nat.digits_ne_nil_iff_ne_zero.mpr ha
  rw [List.getLast?_eq_getLast _ hLne] at hLlast
  have heq : (Nat.digits 10 a).getLast hLne = 0 := by injection hLlast
  exact Nat.getLast_digit_ne_zero 10 ha heq

/-! ## C5: the round-trip analysis -/

theorem int_natCast_mod_pow_beq (a j : Nat) :
    (((a : Int) % (10:Int)^j == 0) = true) ↔ a % 10 ^ j = 0 := by
  rw [beq_iff_eq]
  constructor
  · intro h
    have : ((a % 10 ^ j : Nat) : Int) = 0 := by push_cast; omega
    exact_mod_cast this
  · intro h
    have : ((a % 10 ^ j : Nat) : Int) = 0 := by exact_mod_cast h
    push_cast at this
    omega

theorem not_dvd_shift (t j s : Nat) (hj : 1 ≤ j) (hnd : ¬ (10 ∣ s)) :
    ¬ (10 ^ (t + j) ∣ 10 ^ t * s) := by
  intro hdvd
  apply hnd
  have h1 : 10 ^ (t + j) = 10 ^ t * 10 ^ j := pow_add 10 t j
  rw [h1] at hdvd
  have h2 : 10 ^ j ∣ s :=
    (Nat.mul_dvd_mul_iff_left (pow_pos (by norm_num : (0:Nat) < 10) t)).mp hdvd
  exact dvd_trans (dvd_pow_self 10 (by omega : j ≠ 0)) h2

theorem valBE_getLast?_mod (l : List Nat) (x : Nat) (h : l.getLast? = some x) :
    valBE l % 10 = x % 10 := by
  obtain ⟨ys, rfl⟩ := List.getLast?_eq_some_iff.mp h
  rw [valBE_append]
  have h1 : valBE [x] = x := by
    rw [valBE_cons]
    simp [valBE]
  rw [h1]
  simp
  omega

theorem jsNumIsInteger_neg_shift (t s : Nat) (e : Int) (he : e < 0)
    (hj : t + 1 ≤ (-e).toNat) (hnd : ¬ (10 ∣ s)) :
    jsNumIsInteger (JSNum.fin ((10 ^ t * s : Nat) : Int) e) = false := by
  simp only [jsNumIsInteger]
  have hdec : decide (0 ≤ e) = false := decide_eq_false (not_le.mpr he)
  have hexp : (-e).toNat = t + ((-e).toNat - t) := by omega
  have hndvd : ¬ (10 ^ ((-e).toNat) ∣ 10 ^ t * s) := by
    rw [hexp]
    exact not_dvd_shift t _ s (by omega) hnd
  have hmodf : ((((10 ^ t * s : Nat) : Int)) % (10:Int) ^ ((-e).toNat) == 0) = false :=
    Bool.eq_false_iff.mpr
      (fun hc => hndvd (Nat.dvd_iff_mod_eq_zero.mpr ((int_natCast_mod_pow_beq _ _).mp hc)))
  rw [hdec, hmodf]
  rfl

theorem roundtrip_core (t : Nat) (sig : List Nat) (e : Int)
    (hne : sig ≠ [])
    (hdl : ∀ d ∈ sig, d < 10)
    (hnd : ¬ (10 ∣ Nat.ofDigits 10 sig))
    (hlast : ∀ x, sig.getLast? = some x → x ≠ 0)
    (hlt : ((10 ^ t * Nat.ofDigits 10 sig : Nat) : ℚ) * 10 ^ e < 10 ^ (21 : ℕ)) :
    numEq (jsParseIntTen (String.mk (ecmaFormat (sig.reverse.map digitChar) sig.length
        (e + t + sig.length))))
        (JSNum.fin ((10 ^ t * Nat.ofDigits 10 sig : Nat) : Int) e) =
      jsNumIsInteger (JSNum.fin ((10 ^ t * Nat.ofDigits 10 sig : Nat) : Int) e) := by
  have hs10 : ∀ d ∈ sig.reverse, d < 10 := by
    intro d hd
    exact hdl d (List.mem_reverse.mp hd)
  have hrevne : sig.reverse ≠ [] := by
    intro hcon
    exact hne (List.reverse_eq_nil_iff.mp hcon)
  obtain ⟨d1, rest1, hbig, hd1ne, hd1lt⟩ :
      ∃ d1 rest1, sig.reverse = d1 :: rest1 ∧ d1 ≠ 0 ∧ d1 < 10 := by
    cases hr : sig.reverse with
    | nil => exact absurd hr hrevne
    | cons d1 rest1 =>
        have hh : sig.getLast? = some d1 := by
          rw [← List.head?_reverse, hr]
          rfl
        exact ⟨d1, rest1, rfl, hlast d1 hh, hdl d1 (by
          have : d1 ∈ sig.reverse := by rw [hr]; exact List.mem_cons_self _ _
          exact List.mem_reverse.mp this)⟩
  have hk1 : 1 ≤ sig.length := by
    cases sig with
    | nil => exact absurd rfl hne
    | cons x xs => simp
  have hklen : rest1.length = sig.length - 1 := by
    have := congrArg List.length hbig
    simp at this
    omega
  have hs_lt : Nat.ofDigits 10 sig < 10 ^ sig.length := by
    have := valBE_lt sig.reverse hs10
    rw [valBE_reverse] at this
    simpa using this
  have hs_ge : 10 ^ (sig.length - 1) ≤ Nat.ofDigits 10 sig := by
    have h1 := valBE_ge_head d1 rest1
    rw [← hbig, valBE_reverse] at h1
    calc 10 ^ (sig.length - 1) = 1 * 10 ^ rest1.length := by rw [hklen]; ring
      _ ≤ d1 * 10 ^ rest1.length := by
          have : 1 ≤ d1 := by omega
          exact Nat.mul_le_mul_right _ this
      _ ≤ Nat.ofDigits 10 sig := h1
  have hs_pos : 0 < Nat.ofDigits 10 sig := by
    have := pow_pos (by norm_num : (0:Nat) < 10) (sig.length - 1)
    omega
  -- exclude the large-exponent exponential case using the bound
  have hn_le : e + t + sig.length ≤ 21 := by
    by_contra hcon
    push_neg at hcon
    have hq1 : (10:ℚ) ^ ((t + (sig.length - 1) : Nat) : ℤ) ≤
        ((10 ^ t * Nat.ofDigits 10 sig : Nat) : ℚ) := by
      have hnat : (10 : Nat) ^ (t + (sig.length - 1)) ≤ 10 ^ t * Nat.ofDigits 10 sig := by
        rw [pow_add]
        exact Nat.mul_le_mul_left _ hs_ge
      have := (Nat.cast_le (α := ℚ)).mpr hnat
      rw [zpow_natCast]
      exact_mod_cast this
    have hq2 : (10:ℚ) ^ ((21 : ℤ)) ≤ ((10 ^ t * Nat.ofDigits 10 sig : Nat) : ℚ) * 10 ^ e := by
      have hexp : (21 : ℤ) ≤ ((t + (sig.length - 1) : Nat) : ℤ) + e := by
        push_cast
        omega
      calc (10:ℚ) ^ ((21 : ℤ)) ≤ (10:ℚ) ^ (((t + (sig.length - 1) : Nat) : ℤ) + e) :=
            zpow_le_zpow_right₀ (by norm_num : (1:ℚ) ≤ 10) hexp
        _ = (10:ℚ) ^ ((t + (sig.length - 1) : Nat) : ℤ) * 10 ^ e :=
            zpow_add₀ (by norm_num : (10:ℚ) ≠ 0) _ _
        _ ≤ ((10 ^ t * Nat.ofDigits 10 sig : Nat) : ℚ) * 10 ^ e := by
            apply mul_le_mul_of_nonneg_right hq1
            positivity
    have h21 : (10:ℚ) ^ ((21:ℤ)) = (10:ℚ) ^ (21:ℕ) := by
      rw [← zpow_natCast]
      norm_num
    rw [h21] at hq2
    exact absurd (lt_of_le_of_lt hq2 hlt) (lt_irrefl _)
  have hsmod : Nat.ofDigits 10 sig % 10 ≠ 0 := by
    intro hcon
    exact hnd (Nat.dvd_iff_mod_eq_zero.mpr hcon)
  by_cases hA : (sig.length : Int) ≤ e + t + sig.length ∧ e + t + sig.length ≤ 21
  · -- positional integer form: digits followed by zeros
    have het : 0 ≤ e + t := by
      have := hA.1
      omega
    have hbody : ecmaFormat (sig.reverse.map digitChar) sig.length (e + t + sig.length) =
        (sig.reverse ++ List.replicate (e + t + sig.length - sig.length).toNat 0).map
          digitChar := by
      unfold ecmaFormat
      rw [if_pos hA, List.map_append, List.map_replicate]
      rfl
    have h10 : ∀ d ∈ sig.reverse ++ List.replicate (e + t + sig.length - sig.length).toNat 0,
        d < 10 := by
      intro d hd
      rcases List.mem_append.mp hd with h | h
      · exact hs10 d h
      · have := List.eq_of_mem_replicate h
        omega
    have hne2 : sig.reverse ++ List.replicate (e + t + sig.length - sig.length).toNat 0 ≠ [] := by
      intro hcon
      exact hrevne (List.append_eq_nil.mp hcon).1
    have hparse := jsParseIntTen_digitChars _ h10 hne2 [] rfl
    rw [List.append_nil] at hparse
    have hv : valBE (sig.reverse ++ List.replicate (e + t + sig.length - sig.length).toNat 0) =
        Nat.ofDigits 10 sig * 10 ^ (e + t + sig.length - sig.length).toNat := by
      rw [valBE_append, valBE_replicate_zero, valBE_reverse, List.length_replicate]
      exact Nat.add_zero _
    rw [hbody, hparse, hv]
    simp only [numEq, jsNumIsInteger]
    rcases le_or_lt e 0 with he | he
    · rw [if_pos he]
      have hnat : Nat.ofDigits 10 sig * 10 ^ (e + t + sig.length - sig.length).toNat *
          10 ^ (0 - e).toNat = 10 ^ t * Nat.ofDigits 10 sig := by
        rw [mul_assoc, ← pow_add]
        have hexp : (e + t + sig.length - sig.length).toNat + (0 - e).toNat = t := by omega
        rw [hexp]
        ring
      have hbeq : ((Nat.ofDigits 10 sig * 10 ^ (e + t + sig.length - sig.length).toNat : Nat) :
          Int) * (10:Int) ^ ((0:Int) - e).toNat = ((10 ^ t * Nat.ofDigits 10 sig : Nat) : Int) := by
        exact_mod_cast hnat
      rw [beq_iff_eq.mpr hbeq]
      have hdvd : 10 ^ ((-e).toNat) ∣ 10 ^ t * Nat.ofDigits 10 sig := by
        apply Dvd.dvd.mul_right
        apply pow_dvd_pow
        omega
      have hmod : (10 ^ t * Nat.ofDigits 10 sig) % 10 ^ ((-e).toNat) = 0 :=
        Nat.dvd_iff_mod_eq_zero.mp hdvd
      rw [(int_natCast_mod_pow_beq _ _).mpr hmod]
      simp
    · rw [if_neg (not_le.mpr he)]
      have hnat : 10 ^ t * Nat.ofDigits 10 sig * 10 ^ (e - 0).toNat =
          Nat.ofDigits 10 sig * 10 ^ (e + t + sig.length - sig.length).toNat := by
        rw [mul_comm (10 ^ t) _, mul_assoc, ← pow_add]
        have hexp : t + (e - 0).toNat = (e + t + sig.length - sig.length).toNat := by omega
        rw [hexp]
      have hbeq : ((10 ^ t * Nat.ofDigits 10 sig : Nat) : Int) * (10:Int) ^ (e - 0).toNat =
          ((Nat.ofDigits 10 sig * 10 ^ (e + t + sig.length - sig.length).toNat : Nat) : Int) := by
        exact_mod_cast hnat
      rw [beq_iff_eq.mpr hbeq]
      have : decide (0 ≤ e) = true := decide_eq_true he.le
      simp [this]
  · by_cases hB : 0 < e + t + sig.length ∧ e + t + sig.length ≤ 21
    · -- interior decimal point
      have hnk : e + t + sig.length < (sig.length : Int) := by
        rcases not_and_or.mp hA with h | h
        · omega
        · exact absurd hB.2 h
      set p := (e + (t : Int) + sig.length).toNat with hp
      have hp1 : 1 ≤ p := by omega
      have hpk : p < sig.length := by omega
      have he : e < 0 := by omega
      have hbody : ecmaFormat (sig.reverse.map digitChar) sig.length (e + t + sig.length) =
          (sig.reverse.take p).map digitChar ++
            ('.' :: (sig.reverse.drop p).map digitChar) := by
        unfold ecmaFormat
        rw [if_neg hA, if_pos hB, ← List.map_take, ← List.map_drop]
      have h10take : ∀ d ∈ sig.reverse.take p, d < 10 := by
        intro d hd
        exact hs10 d (List.take_subset _ _ hd)
      have htakene : sig.reverse.take p ≠ [] := by
        apply List.ne_nil_of_length_pos
        rw [List.length_take, List.length_reverse]
        omega
      have hdot : Char.isDigit '.' = false := by decide
      have hrest : (('.' :: (sig.reverse.drop p).map digitChar).takeWhile Char.isDigit) = [] := by
        simp [List.takeWhile_cons, hdot]
      have hparse := jsParseIntTen_digitChars (sig.reverse.take p) h10take htakene
        ('.' :: (sig.reverse.drop p).map digitChar) hrest
      have hdropne : sig.reverse.drop p ≠ [] := by
        apply List.ne_nil_of_length_pos
        rw [List.length_drop, List.length_reverse]
        omega
      obtain ⟨x, hx⟩ : ∃ x, sig.reverse.getLast? = some x := by
        cases hgl : sig.reverse.getLast? with
        | none => exact absurd (List.getLast?_eq_none_iff.mp hgl) hrevne
        | some x => exact ⟨x, rfl⟩
      have hxdrop : (sig.reverse.drop p).getLast? = some x := by
        rw [← hx]
        conv_rhs => rw [← List.take_append_drop p sig.reverse]
        rw [List.getLast?_append_of_ne_nil _ hdropne]
      have hsval : valBE sig.reverse = Nat.ofDigits 10 sig := valBE_reverse sig
      have hsplit2 : valBE (sig.reverse.take p) * 10 ^ (sig.length - p) +
          valBE (sig.reverse.drop p) = Nat.ofDigits 10 sig := by
        rw [← hsval]
        conv_rhs => rw [← List.take_append_drop p sig.reverse]
        rw [valBE_append, List.length_drop, List.length_reverse]
      have hlowmod : valBE (sig.reverse.drop p) % 10 = Nat.ofDigits 10 sig % 10 := by
        rw [valBE_getLast?_mod _ x hxdrop, ← valBE_getLast?_mod _ x hx, hsval]
      have hlowne : valBE (sig.reverse.drop p) ≠ 0 := by
        intro hcon
        rw [hcon] at hlowmod
        exact hsmod hlowmod.symm
      rw [hbody, hparse]
      simp only [numEq, jsNumIsInteger]
      rw [if_pos he.le]
      have hexp1 : ((0:Int) - e).toNat = t + (sig.length - p) := by omega
      have hnenat : valBE (sig.reverse.take p) * 10 ^ ((0:Int) - e).toNat ≠
          10 ^ t * Nat.ofDigits 10 sig := by
        rw [hexp1, pow_add]
        intro hcon
        have hcon2 : 10 ^ t * (valBE (sig.reverse.take p) * 10 ^ (sig.length - p)) =
            10 ^ t * Nat.ofDigits 10 sig := by
          rw [← hcon]; ring
        have hcon3 : valBE (sig.reverse.take p) * 10 ^ (sig.length - p) =
            Nat.ofDigits 10 sig :=
          Nat.eq_of_mul_eq_mul_left (pow_pos (by norm_num) t) hcon2
        rw [← hsplit2] at hcon3
        omega
      have hbeqf : ((valBE (sig.reverse.take p) : Int) * (10:Int) ^ ((0:Int) - e).toNat ==
          ((10 ^ t * Nat.ofDigits 10 sig : Nat) : Int)) = false := by
        rw [Bool.eq_false_iff]
        intro hcon
        apply hnenat
        have := beq_iff_eq.mp hcon
        exact_mod_cast this
      rw [hbeqf]
      have hexp2 : (-e).toNat = t + (sig.length - p) := by omega
      have hndvd : ¬ (10 ^ ((-e).toNat) ∣ 10 ^ t * Nat.ofDigits 10 sig) := by
        rw [hexp2]
        exact not_dvd_shift t (sig.length - p) _ (by omega) hnd
      have hmodf : (((10 ^ t * Nat.ofDigits 10 sig : Nat) : Int) % (10:Int) ^ ((-e).toNat) ==
          0) = false := by
        rw [Bool.eq_false_iff]
        intro hcon
        exact hndvd (Nat.dvd_iff_mod_eq_zero.mpr ((int_natCast_mod_pow_beq _ _).mp hcon))
      rw [hmodf]
      have hdec : decide (0 ≤ e) = false := decide_eq_false (not_le.mpr he)
      simp [hdec]
    · by_cases hC : -6 < e + t + sig.length ∧ e + t + sig.length ≤ 0
      · -- leading "0." form
        have he : e < 0 := by omega
        have hbody : ecmaFormat (sig.reverse.map digitChar) sig.length
            (e + t + sig.length) =
            ([0].map digitChar) ++ ('.' ::
              (List.replicate (-(e + (t:Int) + sig.length)).toNat '0' ++
                sig.reverse.map digitChar)) := by
          unfold ecmaFormat
          rw [if_neg hA, if_neg hB, if_pos hC]
          rfl
        have hdot : Char.isDigit '.' = false := by decide
        have hrest : (('.' :: (List.replicate (-(e + (t:Int) + sig.length)).toNat '0' ++
            sig.reverse.map digitChar)).takeWhile Char.isDigit) = [] := by
          simp [List.takeWhile_cons, hdot]
        have hparse := jsParseIntTen_digitChars [0]
          (by intro d hd; simp at hd; omega) (by simp)
          ('.' :: (List.replicate (-(e + (t:Int) + sig.length)).toNat '0' ++
            sig.reverse.map digitChar)) hrest
        rw [hbody, hparse]
        have hv0 : valBE [0] = 0 := by rw [valBE_cons]; simp [valBE]
        rw [hv0]
        rw [jsNumIsInteger_neg_shift t _ e he (by omega) hnd]
        simp only [numEq]
        rw [if_pos he.le]
        have hanz : 10 ^ t * Nat.ofDigits 10 sig ≠ 0 :=
          (Nat.mul_pos (pow_pos (by norm_num) t) hs_pos).ne'
        have hbeqf : (((0 : Nat) : Int) * (10:Int) ^ ((0:Int) - e).toNat ==
            ((10 ^ t * Nat.ofDigits 10 sig : Nat) : Int)) = false := by
          rw [Bool.eq_false_iff]
          intro hc
          have := beq_iff_eq.mp hc
          have hnat : (0:Nat) * 10 ^ ((0:Int) - e).toNat = 10 ^ t * Nat.ofDigits 10 sig := by
            exact_mod_cast this
          simp at hnat
          omega
        rw [hbeqf]
      · -- exponential form
        have hD : e + t + sig.length ≤ -6 := by
          rcases not_and_or.mp hB with h | h
          · rcases not_and_or.mp hC with h2 | h2
            · omega
            · omega
          · exact absurd hn_le h
        have he : e < 0 := by omega
        have hesign : e + (t:Int) + sig.length - 1 < 0 := by omega
        have hedig : Char.isDigit 'e' = false := by decide
        have hdot : Char.isDigit '.' = false := by decide
        cases hrest1 : rest1 with
        | nil =>
            have hk : sig.length = 1 := by
              rw [hrest1] at hklen
              simp at hklen
              omega
            have hseq : Nat.ofDigits 10 sig = d1 := by
              rw [← valBE_reverse, hbig, hrest1, valBE_cons]
              simp [valBE]
            have hbody : ecmaFormat (sig.reverse.map digitChar) sig.length
                (e + t + sig.length) =
                ([d1].map digitChar) ++ ('e' :: '-' ::
                  renderNat (e + (t:Int) + sig.length - 1).natAbs) := by
              unfold ecmaFormat
              rw [if_neg hA, if_neg hB, if_neg hC, hbig, hrest1]
              simp only [List.map_cons, List.map_nil]
              rw [if_pos hesign]
              rfl
            have hrest : (('e' :: '-' ::
                renderNat (e + (t:Int) + sig.length - 1).natAbs).takeWhile
                  Char.isDigit) = [] := by
              simp [List.takeWhile_cons, hedig]
            have hparse := jsParseIntTen_digitChars [d1]
              (by intro d hd; simp at hd; omega) (by simp)
              ('e' :: '-' :: renderNat (e + (t:Int) + sig.length - 1).natAbs) hrest
            rw [hbody, hparse]
            have hv1 : valBE [d1] = d1 := by rw [valBE_cons]; simp [valBE]
            rw [hv1]
            rw [jsNumIsInteger_neg_shift t _ e he (by omega) hnd]
            simp only [numEq]
            rw [if_pos he.le]
            have hlt2 : 10 ^ t * Nat.ofDigits 10 sig < d1 * 10 ^ ((0:Int) - e).toNat := by
              rw [hseq]
              have hexp : t < ((0:Int) - e).toNat := by omega
              calc 10 ^ t * d1 = d1 * 10 ^ t := by ring
                _ < d1 * 10 ^ ((0:Int) - e).toNat :=
                    Nat.mul_lt_mul_of_le_of_lt (le_refl d1)
                      (Nat.pow_lt_pow_right (by norm_num) hexp) (by omega)
            have hbeqf : (((d1 : Nat) : Int) * (10:Int) ^ ((0:Int) - e).toNat ==
                ((10 ^ t * Nat.ofDigits 10 sig : Nat) : Int)) = false := by
              rw [Bool.eq_false_iff]
              intro hc
              have := beq_iff_eq.mp hc
              have hnat : d1 * 10 ^ ((0:Int) - e).toNat = 10 ^ t * Nat.ofDigits 10 sig := by
                exact_mod_cast this
              omega
            rw [hbeqf]
        | cons r2 rs =>
            have hk2 : 2 ≤ sig.length := by
              have := congrArg List.length hbig
              rw [hrest1] at this
              simp at this
              omega
            have hbody : ecmaFormat (sig.reverse.map digitChar) sig.length
                (e + t + sig.length) =
                ([d1].map digitChar) ++ ('.' :: (((r2 :: rs).map digitChar) ++ 'e' :: '-' ::
                  renderNat (e + (t:Int) + sig.length - 1).natAbs)) := by
              unfold ecmaFormat
              rw [if_neg hA, if_neg hB, if_neg hC, hbig, hrest1]
              simp only [List.map_cons]
              rw [if_pos hesign]
              rfl
            have hrest : (('.' :: (((r2 :: rs).map digitChar) ++ 'e' :: '-' ::
                renderNat (e + (t:Int) + sig.length - 1).natAbs)).takeWhile
                  Char.isDigit) = [] := by
              simp [List.takeWhile_cons, hdot]
            have hparse := jsParseIntTen_digitChars [d1]
              (by intro d hd; simp at hd; omega) (by simp)
              ('.' :: (((r2 :: rs).map digitChar) ++ 'e' :: '-' ::
                renderNat (e + (t:Int) + sig.length - 1).natAbs)) hrest
            rw [hbody, hparse]
            have hv1 : valBE [d1] = d1 := by rw [valBE_cons]; simp [valBE]
            rw [hv1]
            rw [jsNumIsInteger_neg_shift t _ e he (by omega) hnd]
            simp only [numEq]
            rw [if_pos he.le]
            have hexp : t + sig.length ≤ ((0:Int) - e).toNat := by omega
            have hlt2 : 10 ^ t * Nat.ofDigits 10 sig < d1 * 10 ^ ((0:Int) - e).toNat := by
              calc 10 ^ t * Nat.ofDigits 10 sig < 10 ^ t * 10 ^ sig.length := by
                    apply Nat.mul_lt_mul_of_le_of_lt (le_refl _) hs_lt
                    exact pow_pos (by norm_num) t
                _ = 10 ^ (t + sig.length) := (pow_add 10 t sig.length).symm
                _ ≤ 10 ^ ((0:Int) - e).toNat := Nat.pow_le_pow_right (by norm_num) hexp
                _ ≤ d1 * 10 ^ ((0:Int) - e).toNat := by
                    have : 1 ≤ d1 := by omega
                    exact Nat.le_mul_of_pos_left _ (by omega)
            have hbeqf : (((d1 : Nat) : Int) * (10:Int) ^ ((0:Int) - e).toNat ==
                ((10 ^ t * Nat.ofDigits 10 sig : Nat) : Int)) = false := by
              rw [Bool.eq_false_iff]
              intro hc
              have := beq_iff_eq.mp hc
              have hnat : d1 * 10 ^ ((0:Int) - e).toNat = 10 ^ t * Nat.ofDigits 10 sig := by
                exact_mod_cast this
              omega
            rw [hbeqf]




theorem jsNumToString_pos (a : Nat) (ha : a ≠ 0) (e : Int) :
    jsNumToString (JSNum.fin (a : Int) e) =
      String.mk (ecmaFormat
        (((natDigitsLE a).dropWhile (fun d => d = 0)).reverse.map digitChar)
        ((natDigitsLE a).dropWhile (fun d => d = 0)).length
        (e + ((natDigitsLE a).takeWhile (fun d => d = 0)).length +
          ((natDigitsLE a).dropWhile (fun d => d = 0)).length)) := by
  have h1 : ¬ ((a : Int) = 0) := by exact_mod_cast ha
  have h2 : ¬ ((a : Int) < 0) := not_lt.mpr (Int.natCast_nonneg a)
  simp only [jsNumToString, h1, if_false, h2, Int.natAbs_ofNat, List.length_map,
    List.length_reverse]

theorem roundtrip_eq_isInteger_pos (a : Nat) (ha : a ≠ 0) (e : Int)
    (hlt : ((a : Nat) : ℚ) * 10 ^ e < 10 ^ (21 : ℕ)) :
    numEq (jsParseIntTen (jsNumToString (JSNum.fin (a : Int) e))) (JSNum.fin (a : Int) e) =
      jsNumIsInteger (JSNum.fin (a : Int) e) := by
  obtain ⟨hval, hne, hdl, hnd, hlast⟩ := sig_facts a ha
  rw [jsNumToString_pos a ha e]
  have ht := roundtrip_core ((natDigitsLE a).takeWhile (fun d => d = 0)).length
    ((natDigitsLE a).dropWhile (fun d => d = 0)) e hne hdl hnd hlast
    (by rw [← hval]; exact hlt)
  rw [← hval] at ht
  exact ht

theorem isPositiveIntegerOrZero_eq_nonnegInt (m e : Int)
    (hlt : (m : ℚ) * 10 ^ e < 10 ^ (21 : ℕ)) :
    isPositiveIntegerOrZero (JSNum.fin m e) = jsNumIsNonnegInt (JSNum.fin m e) := by
  rcases lt_trichotomy m 0 with hm | hm | hm
  · have hge : jsGeZero (JSNum.fin m e) = false := by
      simp only [jsGeZero]
      exact decide_eq_false (by omega)
    have hmm : decide (0 ≤ m) = false := decide_eq_false (by omega)
    simp only [isPositiveIntegerOrZero, jsIsNaN, jsIsFinite, jsNumIsNonnegInt,
      Bool.not_true, Bool.or_false, if_false, hge, Bool.false_and, hmm]
    simp
  · subst hm
    have hs : jsNumToString (JSNum.fin 0 e) = "0" := by
      simp [jsNumToString]
    have hp : jsParseIntTen "0" = JSNum.fin 0 0 := by decide
    simp only [isPositiveIntegerOrZero, jsIsNaN, jsIsFinite, Bool.not_true, Bool.or_false,
      if_false, hs, hp, jsGeZero, numEq, jsNumIsNonnegInt]
    have h1 : decide ((0:Int) ≤ 0) = true := by decide
    rcases le_or_lt e 0 with he | he
    · rw [if_pos he]
      simp
    · rw [if_neg (not_le.mpr he)]
      simp
  · have ha : m.toNat ≠ 0 := by omega
    have hcast : m = ((m.toNat : Nat) : Int) := (Int.toNat_of_nonneg hm.le).symm
    have hlt2 : ((m.toNat : Nat) : ℚ) * 10 ^ e < 10 ^ (21 : ℕ) := by
      have : ((m.toNat : Nat) : ℚ) = (m : ℚ) := by
        rw [hcast]
        norm_cast
      rw [this]
      exact hlt
    have hcore := roundtrip_eq_isInteger_pos m.toNat ha e hlt2
    rw [← hcast] at hcore
    have hge : jsGeZero (JSNum.fin m e) = true := by
      simp only [jsGeZero]
      exact decide_eq_true hm.le
    have hmm : decide (0 ≤ m) = true := decide_eq_true hm.le
    simp only [isPositiveIntegerOrZero, jsIsNaN, jsIsFinite, Bool.not_true, Bool.or_false,
      if_false, hge, Bool.true_and, jsNumIsNonnegInt, hmm, hcore, jsNumIsInteger]
    simp

/-! ## C5 -/

/-- C5 counterexample: 10^21 is a non-negative integer value, but its string
form is the exponential "1e+21", whose integer parse is 1, so
isPositiveIntegerOrZero rejects it; the claimed equivalence with "n is a
non-negative integer value" fails at this input. -/
theorem isPositiveIntegerOrZero_cex :
    jsNumToString (JSNum.fin 1 21) = "1e+21" ∧
    jsNumIsNonnegInt (JSNum.fin 1 21) = true ∧
    isPositiveIntegerOrZero (JSNum.fin 1 21) = false := by
  refine ⟨by decide, by decide, by decide⟩

/-- C5 amended: isPositiveIntegerOrZero returns false on NaN and the
infinities, and on every finite value below 10^21 (where the string form is
positional) it returns true exactly when the value is a non-negative integer;
non-negative integers at or above 10^21 take the exponential string form and
are rejected, as the counterexample shows. -/
theorem isPositiveIntegerOrZero_amended :
    isPositiveIntegerOrZero JSNum.nan = false ∧
    isPositiveIntegerOrZero JSNum.inf = false ∧
    isPositiveIntegerOrZero JSNum.neginf = false ∧
    (∀ (m e : Int), (m : ℚ) * 10 ^ e < 10 ^ (21 : ℕ) →
      isPositiveIntegerOrZero (JSNum.fin m e) = jsNumIsNonnegInt (JSNum.fin m e)) :=
  ⟨rfl, rfl, rfl, isPositiveIntegerOrZero_eq_nonnegInt⟩

theorem isPositiveIntegerOrZero_amended_witness :
    ((0 : ℚ) * 10 ^ ((0:ℤ)) < 10 ^ (21 : ℕ) ∧
      isPositiveIntegerOrZero (JSNum.fin 0 0) = jsNumIsNonnegInt (JSNum.fin 0 0) ∧
      isPositiveIntegerOrZero (JSNum.fin 0 0) = true) ∧
    ((35 : ℚ) * 10 ^ ((-1 : ℤ)) < 10 ^ (21 : ℕ) ∧
      isPositiveIntegerOrZero (JSNum.fin 35 (-1)) = jsNumIsNonnegInt (JSNum.fin 35 (-1)) ∧
      isPositiveIntegerOrZero (JSNum.fin 35 (-1)) = false) ∧
    ((-1 : ℚ) * 10 ^ ((0 : ℤ)) < 10 ^ (21 : ℕ) ∧
      isPositiveIntegerOrZero (JSNum.fin (-1) 0) = jsNumIsNonnegInt (JSNum.fin (-1) 0) ∧
      isPositiveIntegerOrZero (JSNum.fin (-1) 0) = false) :=
  ⟨⟨by norm_num,
    isPositiveIntegerOrZero_amended.2.2.2 0 0 (by norm_num),
    by decide⟩,
   ⟨by rw [zpow_neg, zpow_one]; norm_num,
    isPositiveIntegerOrZero_amended.2.2.2 35 (-1) (by rw [zpow_neg, zpow_one]; norm_num),
    by decide⟩,
   ⟨by norm_num,
    isPositiveIntegerOrZero_amended.2.2.2 (-1) 0 (by norm_num),
    by decide⟩⟩
